import Mathlib

/-!
Verification development for the Metarunx Discord bot (`main.py`).

The file shallowly embeds the bot's pure request-processing logic:
the completion-client response pipeline (`call_ai_api`), the audio
client (`get_audio_from_text`), the response dispatcher of `on_message`
(message chunking, fenced-code cleanup, event emission), and the
authorization snapshot builder (`get_user_info`).  Network exchanges are
represented by explicit outcome values (network error, timeout, or an
HTTP response with status/headers/body); everything downstream of the
exchange is translated directly from the Python source.
-/

set_option maxRecDepth 8000

namespace Gem

/-! ## JSON values

A JSON value as produced by Python's `json.loads`: objects are
key-value lists in insertion order with unique keys (later duplicate
keys overwrite earlier ones, as in a Python `dict`). -/

inductive Json where
  | null
  | bool (b : Bool)
  | num (n : Int)
  | str (s : String)
  | arr (elems : List Json)
  | obj (members : List (String × Json))

/-- Dictionary lookup, `d[k]` / `d.get(k)`: `none` when the value is not
a dict or the key is absent. Parsed objects have unique keys, so the
first match is the only one. -/
def Json.lookup : Json → String → Option Json
  | .obj kvs, k => (kvs.find? (fun p => p.1 = k)).map (fun p => p.2)
  | _, _ => none

/-- Python `k in d` on a dict. -/
def Json.hasKey : Json → String → Bool
  | .obj kvs, k => kvs.any (fun p => p.1 = k)
  | _, _ => false

/-- Python `del d[k]` on a dict (identity on non-objects). -/
def Json.removeKey : Json → String → Json
  | .obj kvs, k => .obj (kvs.filter (fun p => p.1 ≠ k))
  | j, _ => j

/-- Whether the value is a dict (`isinstance(x, dict)`). -/
def Json.isObj : Json → Bool
  | .obj _ => true
  | _ => false

/-! ## A small JSON parser standing in for `json.loads`

The parser covers the JSON fragment exchanged with the completion API:
objects, arrays, strings with the common escapes, integer numbers and
the three literals.  A parse failure models `json.JSONDecodeError`.
Fuel arguments make the recursion structural; callers pass fuel larger
than the input length, which every recursive call strictly decreases. -/

def jsonSkipWs : List Char → List Char
  | [] => []
  | c :: cs => if c = ' ' || c = '\n' || c = '\t' || c = '\r' then jsonSkipWs cs else c :: cs

def isDigitChar (c : Char) : Bool := '0' ≤ c && c ≤ '9'

def digitsToNat (l : List Char) : Nat :=
  l.foldl (fun a c => a * 10 + (c.toNat - 48)) 0

/-- Parse the remainder of a JSON string literal (the opening quote is
already consumed); returns the decoded characters and the rest of the
input. -/
def parseJsonString (fuel : Nat) (l : List Char) : Option (List Char × List Char) :=
  match fuel, l with
  | 0, _ => none
  | _, [] => none
  | f + 1, c :: cs =>
    if c = '"' then some ([], cs)
    else if c = '\\' then
      match cs with
      | [] => none
      | e :: cs2 =>
        let d := if e = 'n' then '\n' else if e = 't' then '\t' else if e = 'r' then '\r'
                 else if e = 'b' then '\x08' else if e = 'f' then '\x0c' else e
        match parseJsonString f cs2 with
        | some (s, rest) => some (d :: s, rest)
        | none => none
    else
      match parseJsonString f cs with
      | some (s, rest) => some (c :: s, rest)
      | none => none

/-- Insert a member into an object under construction with Python dict
semantics: a repeated key overwrites in place, a fresh key appends. -/
def insertMember (kvs : List (String × Json)) (k : String) (v : Json) : List (String × Json) :=
  if kvs.any (fun p => p.1 = k) then
    kvs.map (fun p => if p.1 = k then (k, v) else p)
  else kvs ++ [(k, v)]

mutual

def parseJsonValue (fuel : Nat) (l : List Char) : Option (Json × List Char) :=
  match fuel with
  | 0 => none
  | f + 1 =>
    match jsonSkipWs l with
    | [] => none
    | c :: cs =>
      if c = '"' then
        match parseJsonString (cs.length + 1) cs with
        | some (sc, rest) => some (Json.str (String.mk sc), rest)
        | none => none
      else if c = '\x7b' then parseJsonMembers f cs []
      else if c = '[' then parseJsonElems f cs []
      else if c = 't' then
        if ['r', 'u', 'e'].isPrefixOf cs then some (Json.bool true, cs.drop 3) else none
      else if c = 'f' then
        if ['a', 'l', 's', 'e'].isPrefixOf cs then some (Json.bool false, cs.drop 4) else none
      else if c = 'n' then
        if ['u', 'l', 'l'].isPrefixOf cs then some (Json.null, cs.drop 3) else none
      else if c = '-' then
        let ds := cs.takeWhile isDigitChar
        if ds.isEmpty then none
        else some (Json.num (-(digitsToNat ds : Int)), cs.dropWhile isDigitChar)
      else if isDigitChar c then
        some (Json.num (digitsToNat ((c :: cs).takeWhile isDigitChar)),
              (c :: cs).dropWhile isDigitChar)
      else none

/-- Parse object members, entered just after `\x7b` or after a comma. -/
def parseJsonMembers (fuel : Nat) (l : List Char) (acc : List (String × Json)) :
    Option (Json × List Char) :=
  match fuel with
  | 0 => none
  | f + 1 =>
    match jsonSkipWs l with
    | [] => none
    | c :: cs =>
      if c = '\x7d' then
        if acc.isEmpty then some (Json.obj [], cs) else none
      else if c = '"' then
        match parseJsonString (cs.length + 1) cs with
        | none => none
        | some (key, r1) =>
          match jsonSkipWs r1 with
          | ':' :: r2 =>
            match parseJsonValue f r2 with
            | none => none
            | some (v, r3) =>
              let acc2 := insertMember acc (String.mk key) v
              match jsonSkipWs r3 with
              | ',' :: r4 => parseJsonMembers f r4 acc2
              | '\x7d' :: r4 => some (Json.obj acc2, r4)
              | _ => none
          | _ => none
      else none

/-- Parse array elements, entered just after `[` or after a comma. -/
def parseJsonElems (fuel : Nat) (l : List Char) (acc : List Json) :
    Option (Json × List Char) :=
  match fuel with
  | 0 => none
  | f + 1 =>
    match jsonSkipWs l with
    | [] => none
    | c :: cs =>
      if c = ']' then
        if acc.isEmpty then some (Json.arr [], cs) else none
      else
        match parseJsonValue f (c :: cs) with
        | none => none
        | some (v, r1) =>
          match jsonSkipWs r1 with
          | ',' :: r2 => parseJsonElems f r2 (acc ++ [v])
          | ']' :: r2 => some (Json.arr (acc ++ [v]), r2)
          | _ => none

end

/-- Python `json.loads`: parse a complete JSON document; trailing
non-whitespace is an error. -/
def json_loads (s : String) : Option Json :=
  match parseJsonValue (s.data.length + 1) s.data with
  | some (j, rest) => if (jsonSkipWs rest).isEmpty then some j else none
  | none => none

/-! ## Python string helpers used by the bot -/

/-- Python `str.strip()` default whitespace set. -/
def isPySpace (c : Char) : Bool :=
  c = ' ' || c = '\t' || c = '\n' || c = '\r' || c = '\x0b' || c = '\x0c'

/-- Python `s.strip()`. -/
def pyStrip (s : String) : String :=
  String.mk (((s.data.dropWhile isPySpace).reverse.dropWhile isPySpace).reverse)

/-- Python `s.startswith(pre)` where `pre` is the second argument. -/
def pyStartsWith (s pat : String) : Bool :=
  pat.data.isPrefixOf s.data

/-- Python `s[:n]` for a nonnegative slice bound. -/
def pyTake (s : String) (n : Nat) : String :=
  String.mk (s.data.take n)

/-! ## Completion client: `call_ai_api` (main.py lines 209-305)

The HTTP exchange is abstracted into an outcome: a network error
(`aiohttp.ClientError`), a timeout (`asyncio.TimeoutError`), or an HTTP
response carrying a status code and a body text.  The prompt-building
and logging on the request side have no effect on the returned value
and are omitted; everything from the response onwards is translated
line by line.  The `finish_reason == length` case only logs a warning
in the source and does not change the result. -/

inductive ApiOutcome where
  | netError
  | timeout
  | httpResponse (status : Nat) (body : String)

/-- Extraction of `choices[0].message.content` (main.py lines 244-250).
Every shape deviation — missing or empty `choices`, a non-object
element, a missing `message`/`content`, a falsy or non-string
`content` — ends in the `return None` paths of the source (directly or
through the surrounding generic exception handler). -/
def extract_content (wrapper : Json) : Option String :=
  match wrapper.lookup "choices" with
  | some (.arr (c0 :: _)) =>
    match c0.lookup "message" with
    | some msg =>
      match msg.lookup "content" with
      | some (.str s) => if s = "" then none else some s
      | _ => none
    | none => none
  | _ => none

/-- The four enumerated payload tags. -/
def validTypeTag (t : String) : Bool :=
  t = "text" || t = "code" || t = "audio" || t = "rejection"

/-- Whether an optional JSON value is present and a string
(`k in d and isinstance(d[k], str)`). -/
def isStrVal : Option Json → Bool
  | some (.str _) => true
  | _ => false

/-- The string carried by an optional JSON value (defaulting to `""`,
only ever read under an `isStrVal` guard). -/
def strVal : Option Json → String
  | some (.str s) => s
  | _ => ""

/-- Validation of the inner payload (main.py lines 253-277): a dict with
string `response`, `feedback` and `type`, the `type` one of the four
tags; when `type` is `"code"` a non-blank string `code` is required,
otherwise a spurious `code` key is deleted before returning. -/
def validate_content (parsed_content : Json) : Option Json :=
  if parsed_content.isObj && isStrVal (parsed_content.lookup "response") &&
      isStrVal (parsed_content.lookup "feedback") &&
      isStrVal (parsed_content.lookup "type") &&
      validTypeTag (strVal (parsed_content.lookup "type")) then
    if strVal (parsed_content.lookup "type") = "code" then
      if isStrVal (parsed_content.lookup "code") &&
          (pyStrip (strVal (parsed_content.lookup "code")) != "") then
        some parsed_content
      else none
    else
      if parsed_content.hasKey "code" then some (parsed_content.removeKey "code")
      else some parsed_content
  else none

/-- The completion client `call_ai_api` (main.py lines 209-305), as a
function of the exchange outcome. -/
def call_ai_api (outcome : ApiOutcome) : Option Json :=
  match outcome with
  | .netError => none
  | .timeout => none
  | .httpResponse status response_text =>
    if status = 200 then
      match json_loads response_text with
      | none => none
      | some wrapper =>
        match extract_content wrapper with
        | none => none
        | some message_content_str =>
          match json_loads message_content_str with
          | none => none
          | some parsed_content => validate_content parsed_content
    else none

/-! ## Audio client: `get_audio_from_text` (main.py lines 308-361)

The URL construction (`urllib.parse.quote` with `safe=''`, the template
`format`, and the length-ceiling truncation) is pure and embedded
directly.  The GET exchange is abstracted into an outcome value. -/

/-- Characters `urllib.parse.quote` never encodes (letters, digits and
`_.-~`). -/
def isUnreserved (c : Char) : Bool :=
  ('A' ≤ c && c ≤ 'Z') || ('a' ≤ c && c ≤ 'z') || ('0' ≤ c && c ≤ '9') ||
    c = '_' || c = '.' || c = '-' || c = '~'

/-- UTF-8 encoding of a character as byte values. -/
def utf8Bytes (c : Char) : List Nat :=
  let n := c.toNat
  if n < 0x80 then [n]
  else if n < 0x800 then [0xC0 + n / 0x40, 0x80 + n % 0x40]
  else if n < 0x10000 then
    [0xE0 + n / 0x1000, 0x80 + n / 0x40 % 0x40, 0x80 + n % 0x40]
  else
    [0xF0 + n / 0x40000, 0x80 + n / 0x1000 % 0x40, 0x80 + n / 0x40 % 0x40, 0x80 + n % 0x40]

/-- Uppercase hexadecimal digit for a value below 16. -/
def hexDigit (n : Nat) : Char :=
  if n < 10 then Char.ofNat (48 + n) else Char.ofNat (55 + n)

/-- Percent-encoding of one character under `quote(_, safe='')`. -/
def quoteChar (c : Char) : List Char :=
  if isUnreserved c then [c]
  else (utf8Bytes c).flatMap (fun b => ['%', hexDigit (b / 16), hexDigit (b % 16)])

/-- Python `urllib.parse.quote(s, safe='')`. -/
def pyQuote (s : String) : String :=
  String.mk (s.data.flatMap quoteChar)

/-- The audio endpoint template `AI_AUDIO_API_URL_TEMPLATE`
(main.py line 22); `audioUrlHead`/`audioUrlTail` are the scaffolding
around the `prompt` placeholder. -/
def audioUrlHead : String := "https://text.pollinations.ai/"

def audioUrlTail : String := "?model=openai-audio&voice=nova"

def AI_AUDIO_API_URL_TEMPLATE : String := audioUrlHead ++ "{prompt}" ++ audioUrlTail

/-- `AI_AUDIO_API_URL_TEMPLATE.format(prompt=p)`. -/
def formatAudioUrl (p : String) : String := audioUrlHead ++ p ++ audioUrlTail

/-- The URL length ceiling of `get_audio_from_text` (`max_url_len`,
main.py line 317). -/
def max_url_len : Nat := 2000

/-- The truncation budget `allowed_prompt_len` (main.py line 320): the
ceiling minus the template scaffolding length minus a 50-character
buffer.  It does not depend on the text, so it is a constant. -/
def allowed_prompt_len : Int :=
  (max_url_len : Int) -
    ((AI_AUDIO_API_URL_TEMPLATE.length : Int) - (("{prompt}".length : Nat) : Int)) - 50

/-- URL construction of `get_audio_from_text` (main.py lines 314-326):
encode the text, and when the URL would exceed the ceiling, truncate
the raw text to the budget, append `"..."` and re-encode.  `none`
models the `return None` of the (statically unreachable)
non-positive-budget branch. -/
def get_audio_url (text : String) : Option String :=
  if (formatAudioUrl (pyQuote text)).length > max_url_len then
    if allowed_prompt_len ≤ 0 then none
    else some (formatAudioUrl (pyQuote (pyTake text allowed_prompt_len.toNat ++ "...")))
  else some (formatAudioUrl (pyQuote text))

/-- Outcome of the audio GET exchange: network error, timeout, or a
response with status, `Content-Type` header (after the `.get` default)
and body bytes. -/
inductive AudioOutcome where
  | netError
  | timeout
  | response (status : Nat) (contentType : String) (body : List Nat)

/-- Substring containment test (Python `pat in s` on strings). -/
def containsSeq (pat : List Char) : List Char → Bool
  | [] => pat.isEmpty
  | c :: cs => pat.isPrefixOf (c :: cs) || containsSeq pat cs

/-- ASCII lowering of one character (Python `str.lower()` restricted to
the ASCII range, which covers `Content-Type` header values). -/
def pyLowerChar (c : Char) : Char :=
  if 'A' ≤ c && c ≤ 'Z' then Char.ofNat (c.toNat + 32) else c

/-- Python `s.lower()`. -/
def pyLower (s : String) : String := String.mk (s.data.map pyLowerChar)

/-- Python `'audio' in content_type.lower()`. -/
def containsAudio (contentType : String) : Bool :=
  containsSeq "audio".data (pyLower contentType).data

/-- The audio client `get_audio_from_text` (main.py lines 308-361) as a
function of the text and the exchange outcome.  Empty text returns
before any URL construction or HTTP call, so the outcome argument is
never consulted in that case. -/
def get_audio_from_text (text : String) (outcome : AudioOutcome) : Option (List Nat) :=
  if text = "" then none
  else
    match get_audio_url text with
    | none => none
    | some _url =>
      match outcome with
      | .netError => none
      | .timeout => none
      | .response status contentType audio_bytes =>
        if status = 200 then
          if containsAudio contentType then
            if audio_bytes.isEmpty then none else some audio_bytes
          else none
        else none

/-! ## Line splitting and joining (Python `str.splitlines`, `'\n'.join`)

`splitlines` is modelled by normalizing every line boundary to `\n`
(`\r\n` counting as a single boundary), splitting on `\n`, and dropping
the empty segment a trailing terminator would produce (Python keeps no
line after a final terminator). -/

/-- Python `str.splitlines` line-boundary characters: `\n`, `\r`,
vertical tab `\x0b`, form feed `\x0c`, the file/group/record separators
`\x1c`-`\x1e`, next line `\x85`, the line separator U+2028 and the
paragraph separator U+2029. -/
def isLineBoundary (c : Char) : Bool :=
  c = '\n' || c = '\r' || c = '\x0b' || c = '\x0c' || c = '\x1c' || c = '\x1d' ||
    c = '\x1e' || c = '\x85' || c = '\u2028' || c = '\u2029'

/-- Replace each line boundary with `\n`, a `\r\n` pair counting as one
boundary. -/
def normalizeNL : List Char → List Char
  | [] => []
  | '\r' :: '\n' :: rest => '\n' :: normalizeNL rest
  | c :: rest => (if isLineBoundary c then '\n' else c) :: normalizeNL rest

/-- Split at each `\n`, keeping empty segments (so the result is always
nonempty). -/
def splitOnNL : List Char → List (List Char)
  | [] => [[]]
  | c :: cs =>
    if c = '\n' then [] :: splitOnNL cs
    else
      match splitOnNL cs with
      | h :: t => (c :: h) :: t
      | [] => [[c]]

/-- Python `s.splitlines()`. -/
def pySplitlines (s : String) : List String :=
  if (splitOnNL (normalizeNL s.data)).getLast? = some [] then
    ((splitOnNL (normalizeNL s.data)).dropLast).map String.mk
  else (splitOnNL (normalizeNL s.data)).map String.mk

/-- Python `'\n'.join(l)`. -/
def joinNL : List String → String
  | [] => ""
  | [x] => x
  | x :: y :: xs => x ++ "\n" ++ joinNL (y :: xs)

/-- A string free of line-boundary characters (one line of a fenced
block). -/
def lineSafe (s : String) : Bool :=
  s.data.all (fun c => !isLineBoundary c)

/-! ## Response dispatcher (`on_message`, main.py lines 492-601)

The user-visible actions are recorded as an event list: `reply` is
`message.reply` (with its `mention_author` flag), `send` is
`message.channel.send`, `sendFile` is a file attachment send,
`invokeJsk` is the invocation of the external Jishaku `jsk py`
execution command, and `apiCall` marks the HTTP call to the completion
endpoint. -/

inductive Event where
  | reply (text : String) (mentionAuthor : Bool)
  | send (text : String)
  | sendFile (filename : String)
  | invokeJsk (code : String)
  | apiCall
  deriving DecidableEq

def Event.isReply : Event → Bool
  | .reply _ _ => true
  | _ => false

def Event.mentions : Event → Bool
  | .reply _ m => m
  | _ => false

/-- Python `[response_text[i:i+1990] for i in range(0, len(response_text), 1990)]`
at the character-list level, with fuel for structural recursion (callers
pass the list length, which bounds the iteration count since each step
drops at least one character). -/
def chunksAux (fuel size : Nat) (l : List Char) : List (List Char) :=
  match fuel, l with
  | 0, _ => []
  | _ + 1, [] => []
  | fuel + 1, c :: cs => ((c :: cs).take size) :: chunksAux fuel size ((c :: cs).drop size)

/-- The `parts` list of the long-message split (main.py line 506). -/
def splitParts (response_text : String) : List String :=
  (chunksAux response_text.data.length 1990 response_text.data).map String.mk

/-- The emission loop over `parts` (main.py lines 507-509): each part is
sent with `message.reply`, mentioning the author only on the first
part. -/
def replyParts : List String → Bool → List Event
  | [], _ => []
  | p :: ps, first => .reply p first :: replyParts ps false

/-- The `text`/`rejection` branch of the dispatcher (main.py lines
502-511): reply directly when the response fits in 2000 characters,
otherwise split into 1990-character parts and reply them in order. -/
def emit_text (response_text : String) : List Event :=
  if response_text.length > 2000 then replyParts (splitParts response_text) true
  else [.reply response_text false]

/-- The fenced-code cleanup (main.py lines 533-535): when the stripped
code starts with a triple backtick, drop the first line, and also the
last line when it is exactly a triple-backtick line. -/
def cleanup_code (code_to_execute : String) : String :=
  if pyStartsWith (pyStrip code_to_execute) "```" then
    joinNL
      (if pyStartsWith ((pySplitlines (pyStrip code_to_execute)).headD "") "```" &&
          (pySplitlines (pyStrip code_to_execute)).getLastD "" = "```" then
        ((pySplitlines (pyStrip code_to_execute)).drop 1).dropLast
      else if pyStartsWith ((pySplitlines (pyStrip code_to_execute)).headD "") "```" then
        (pySplitlines (pyStrip code_to_execute)).drop 1
      else pySplitlines (pyStrip code_to_execute))
  else code_to_execute

/-- The `code` branch of the dispatcher (main.py lines 526-571): abort
with a notice when the code is missing before or empty after cleanup,
otherwise acknowledge with the response text and invoke the external
`jsk py` command on the cleaned code. -/
def handle_code (response_text code_to_execute : String) : List Event :=
  if code_to_execute = "" then
    [.reply (response_text ++
      "\n\n_(Internal Error: AI indicated executable code, but none was provided.)_") false]
  else if pyStrip (cleanup_code code_to_execute) = "" then
    [.reply (response_text ++
      "\n\n_(The AI provided code, but it appears to be empty. Action aborted.)_") false]
  else
    [.reply response_text false, .invokeJsk (pyStrip (cleanup_code code_to_execute))]

/-- Python `d.get(k, default)` restricted to string values; the payload
validation guarantees the fields read this way are strings on every
reachable input. -/
def jsonGetStrD (j : Json) (k d : String) : String :=
  match j.lookup k with
  | some (.str s) => s
  | _ => d

/-- Dispatch on a validated payload (main.py lines 493-584): the
`text`/`rejection`, `audio`, `code` and unknown-tag branches. -/
def dispatch_payload (ai_response_data : Json) (audioOutcome : AudioOutcome) : List Event :=
  let response_text := jsonGetStrD ai_response_data "response" "I seem to be speechless."
  let response_type := jsonGetStrD ai_response_data "type" "text"
  if response_type = "text" || response_type = "rejection" then
    emit_text response_text
  else if response_type = "audio" then
    Event.reply response_text false ::
      (match get_audio_from_text response_text audioOutcome with
      | some _ => [Event.sendFile "metarunx_response.mp3"]
      | none => [Event.send "_(Could not generate or retrieve the audio version.)_"])
  else if response_type = "code" then
    match ai_response_data.lookup "code" with
    | some (.str code_to_execute) => handle_code response_text code_to_execute
    | _ => handle_code response_text ""
  else
    [Event.reply (response_text ++ "\n\n_(Received an unexpected response type '" ++
      response_type ++ "'. Displaying as text.)_") false]

/-! ## Authorization snapshot builder: `get_user_info` (main.py lines 159-207)

The ambient platform state is modelled by records: a role has an id, a
name and a non-negative position (the `@everyone` baseline role carries
the guild's id, as in Discord); a member has its identifiers, its role
list (including the baseline role) and its platform-computed top role
and guild permission names; a guild knows its id, owner id and the
bot's own member record (`guild.me`); a channel carries the
`permissions_for` results for the author and for the bot.  The author
and channel arguments may fail to resolve to a guild member/guild
channel, which the source answers with an empty dict (here `none`). -/

structure RoleData where
  id : Nat
  name : String
  position : Nat
  deriving DecidableEq

structure MemberData where
  id : Nat
  userName : String
  nick : Option String
  globalName : Option String
  roles : List RoleData
  topRole : RoleData
  guildPermissions : List String
  deriving DecidableEq

structure GuildData where
  id : Nat
  ownerId : Nat
  me : MemberData
  deriving DecidableEq

structure ChannelData where
  memberPermissions : List String
  botPermissions : List String
  deriving DecidableEq

/-- The author argument: either a resolved `discord.Member` together
with its guild, or a user that is not a live guild member (the
`isinstance`/`member.guild` checks fail). -/
inductive AuthorArg where
  | member (m : MemberData) (g : GuildData)
  | nonMember
  deriving DecidableEq

/-- The channel argument: a guild channel or anything else. -/
inductive ChannelArg where
  | guild (c : ChannelData)
  | nonGuild
  deriving DecidableEq

/-- The snapshot record built by `get_user_info` (main.py lines
184-206), with the same fields. -/
structure UserInfo where
  userId : String
  serverId : String
  userName : String
  userNick : Option String
  userGlobalName : Option String
  userRoles : List String
  userRoleIds : List String
  userTopRoleId : String
  userTopRoleName : String
  userTopRolePosition : Int
  userChannelPermissions : List String
  userGuildPermissions : List String
  isOwner : Bool
  botUserId : String
  botTopRoleId : String
  botTopRolePosition : Int
  botGuildPermissions : List String
  botChannelPermissions : List String
  deriving DecidableEq

/-- `get_role_pos` (main.py lines 181-182): the role's position, with
the `@everyone` baseline role (whose id equals the guild id) and an
absent role both normalized to `-1`. -/
def get_role_pos (guildId : Nat) (role : Option RoleData) : Int :=
  match role with
  | some r => if r.id ≠ guildId then (r.position : Int) else -1
  | none => -1

/-- `get_user_info` (main.py lines 159-207): `none` models the empty
dict returned when the author or the channel does not resolve. -/
def get_user_info (member : AuthorArg) (channel : ChannelArg) : Option UserInfo :=
  match member, channel with
  | .member m guild, .guild ch =>
    let bot_member := guild.me
    some
      { userId := toString m.id
        serverId := toString guild.id
        userName := m.userName
        userNick := m.nick
        userGlobalName := m.globalName
        userRoles := (m.roles.filter (fun r => r.id ≠ guild.id)).map (fun r => r.name)
        userRoleIds := (m.roles.filter (fun r => r.id ≠ guild.id)).map (fun r => toString r.id)
        userTopRoleId :=
          if m.topRole.id ≠ guild.id then toString m.topRole.id else toString guild.id
        userTopRoleName := if m.topRole.id ≠ guild.id then m.topRole.name else "@everyone"
        userTopRolePosition := get_role_pos guild.id (some m.topRole)
        userChannelPermissions := ch.memberPermissions
        userGuildPermissions := m.guildPermissions
        isOwner := m.id = guild.ownerId
        botUserId := toString bot_member.id
        botTopRoleId :=
          if bot_member.topRole.id ≠ guild.id then toString bot_member.topRole.id
          else toString guild.id
        botTopRolePosition := get_role_pos guild.id (some bot_member.topRole)
        botGuildPermissions := bot_member.guildPermissions
        botChannelPermissions := ch.botPermissions }
  | _, _ => none

/-! ## The per-request pipeline (`on_message`, main.py lines 476-601)

The stretch of `on_message` following trigger detection and content
extraction: build the snapshot (aborting with one apology reply when it
is empty), call the completion API (aborting with one apology reply on
a null result), then dispatch on the validated payload. -/

def process_ai_request (author : AuthorArg) (channel : ChannelArg)
    (apiOutcome : ApiOutcome) (audioOutcome : AudioOutcome) : List Event :=
  match get_user_info author channel with
  | none => [Event.reply "An internal error occurred while gathering context." false]
  | some _user_info =>
    Event.apiCall ::
      match call_ai_api apiOutcome with
      | none =>
        [Event.reply
          "My apologies. I encountered difficulty processing your request with the AI module. Please check the logs for details."
          false]
      | some ai_response_data => dispatch_payload ai_response_data audioOutcome

/-! ## Helper lemmas about the payload validation -/

lemma isStrVal_iff (o : Option Json) : isStrVal o = true ↔ ∃ s, o = some (Json.str s) := by
  cases o with
  | none => simp [isStrVal]
  | some v => cases v <;> simp [isStrVal]

lemma isStrVal_eq_false (o : Option Json) (h : ¬∃ s, o = some (Json.str s)) :
    isStrVal o = false := by
  rcases Bool.eq_false_or_eq_true (isStrVal o) with htr | hf
  · exact absurd ((isStrVal_iff o).mp htr) h
  · exact hf

lemma hasKey_of_lookup {j v : Json} {k : String} (h : j.lookup k = some v) :
    j.hasKey k = true := by
  cases j with
  | obj kvs =>
    simp only [Json.lookup] at h
    cases hfind : kvs.find? (fun p => p.1 = k) with
    | none => rw [hfind] at h; simp at h
    | some q =>
      have hq := List.find?_some hfind
      have hmem := List.mem_of_find?_eq_some hfind
      simp only [Json.hasKey, List.any_eq_true]
      exact ⟨q, hmem, hq⟩
  | null => simp [Json.lookup] at h
  | bool b => simp [Json.lookup] at h
  | num n => simp [Json.lookup] at h
  | str s => simp [Json.lookup] at h
  | arr l => simp [Json.lookup] at h

lemma isObj_of_lookup {j v : Json} {k : String} (h : j.lookup k = some v) :
    j.isObj = true := by
  cases j with
  | obj kvs => rfl
  | null => simp [Json.lookup] at h
  | bool b => simp [Json.lookup] at h
  | num n => simp [Json.lookup] at h
  | str s => simp [Json.lookup] at h
  | arr l => simp [Json.lookup] at h

lemma find?_key_filter (k k2 : String) (hne : k ≠ k2) :
    ∀ kvs : List (String × Json),
      (kvs.filter (fun p => p.1 ≠ k2)).find? (fun p => p.1 = k) =
        kvs.find? (fun p => p.1 = k) := by
  intro kvs
  induction kvs with
  | nil => rfl
  | cons hd tl ih =>
    by_cases h2 : hd.1 = k
    · have h1 : ¬(hd.1 = k2) := fun hh => hne (h2 ▸ hh)
      rw [List.filter_cons_of_pos (by simpa using h1),
        List.find?_cons_of_pos _ (by simpa using h2),
        List.find?_cons_of_pos _ (by simpa using h2)]
    · by_cases h1 : hd.1 = k2
      · rw [List.filter_cons_of_neg (by simpa using h1),
          List.find?_cons_of_neg _ (by simpa using h2), ih]
      · rw [List.filter_cons_of_pos (by simpa using h1),
          List.find?_cons_of_neg _ (by simpa using h2),
          List.find?_cons_of_neg _ (by simpa using h2), ih]

lemma lookup_removeKey_ne (j : Json) (k k2 : String) (hne : k ≠ k2) :
    (j.removeKey k2).lookup k = j.lookup k := by
  cases j with
  | obj kvs =>
    simp only [Json.removeKey, Json.lookup]
    rw [find?_key_filter k k2 hne kvs]
  | null => rfl
  | bool b => rfl
  | num n => rfl
  | str s => rfl
  | arr l => rfl

lemma hasKey_removeKey (j : Json) (k : String) : (j.removeKey k).hasKey k = false := by
  cases j with
  | obj kvs =>
    simp only [Json.removeKey, Json.hasKey]
    rw [Bool.eq_false_iff]
    intro hany
    rcases List.any_eq_true.mp hany with ⟨p, hmem, hp⟩
    have := List.of_mem_filter hmem
    simp at this hp
    exact this hp
  | null => rfl
  | bool b => rfl
  | num n => rfl
  | str s => rfl
  | arr l => rfl

lemma isObj_removeKey (j : Json) (k : String) : (j.removeKey k).isObj = j.isObj := by
  cases j <;> rfl

/-- Decomposition of the outer validation condition. -/
lemma validate_content_cond_decomp (j : Json)
    (h : (j.isObj && isStrVal (j.lookup "response") && isStrVal (j.lookup "feedback") &&
      isStrVal (j.lookup "type") && validTypeTag (strVal (j.lookup "type"))) = true) :
    j.isObj = true ∧ isStrVal (j.lookup "response") = true ∧
      isStrVal (j.lookup "feedback") = true ∧ isStrVal (j.lookup "type") = true ∧
      validTypeTag (strVal (j.lookup "type")) = true := by
  simp only [Bool.and_eq_true] at h
  exact ⟨h.1.1.1.1, h.1.1.1.2, h.1.1.2, h.1.2, h.2⟩

lemma validate_content_none_of_bad_type (j : Json) (t : String)
    (ht : j.lookup "type" = some (.str t)) (hv : validTypeTag t = false) :
    validate_content j = none := by
  unfold validate_content
  rw [ht]
  simp [strVal, hv]

lemma validate_content_none_of_bad_code (j : Json)
    (ht : j.lookup "type" = some (.str "code"))
    (hc : j.lookup "code" = none ∨ ∃ c, j.lookup "code" = some (.str c) ∧ pyStrip c = "") :
    validate_content j = none := by
  unfold validate_content
  rw [ht]
  rcases hc with hnone | ⟨c, hcod, hstrip⟩
  · rw [hnone]
    simp [isStrVal, strVal, ite_self]
  · rw [hcod]
    simp [isStrVal, strVal, hstrip, ite_self]

lemma validate_content_none_of_missing (j : Json)
    (h : (¬∃ s, j.lookup "response" = some (Json.str s)) ∨
      (¬∃ s, j.lookup "feedback" = some (Json.str s)) ∨
      (¬∃ s, j.lookup "type" = some (Json.str s))) :
    validate_content j = none := by
  unfold validate_content
  rcases h with h1 | h2 | h3
  · rw [isStrVal_eq_false _ h1]
    simp
  · rw [isStrVal_eq_false _ h2]
    simp
  · rw [isStrVal_eq_false _ h3]
    simp

/-- The shape properties of every payload accepted by the validation. -/
lemma validate_content_props (j p : Json) (h : validate_content j = some p) :
    p.isObj = true ∧
    (∃ s, p.lookup "response" = some (Json.str s)) ∧
    (∃ s, p.lookup "feedback" = some (Json.str s)) ∧
    (∃ t, p.lookup "type" = some (Json.str t) ∧
      (t = "text" ∨ t = "code" ∨ t = "audio" ∨ t = "rejection")) ∧
    (p.hasKey "code" = true ↔ p.lookup "type" = some (Json.str "code")) ∧
    (p.lookup "type" = some (Json.str "code") →
      ∃ c, p.lookup "code" = some (Json.str c) ∧ pyStrip c ≠ "") := by
  unfold validate_content at h
  split at h
  case isFalse => exact absurd h (by simp)
  case isTrue hcond =>
  obtain ⟨hobj, hrs, hfs, hts, htag⟩ := validate_content_cond_decomp j hcond
  obtain ⟨rs, hr⟩ := (isStrVal_iff _).mp hrs
  obtain ⟨fs, hf⟩ := (isStrVal_iff _).mp hfs
  obtain ⟨ts, ht⟩ := (isStrVal_iff _).mp hts
  have hstrv : strVal (j.lookup "type") = ts := by rw [ht]; rfl
  have htag4 : ts = "text" ∨ ts = "code" ∨ ts = "audio" ∨ ts = "rejection" := by
    rw [hstrv] at htag
    simp [validTypeTag, decide_eq_true_eq] at htag
    tauto
  split at h
  case isTrue hcode =>
    -- type is "code": a valid non-blank code string is required and the
    -- payload is returned unchanged
    rw [hstrv] at hcode
    subst hcode
    split at h
    case isFalse => exact absurd h (by simp)
    case isTrue hcc =>
    have hcc2 : isStrVal (j.lookup "code") = true ∧
        (pyStrip (strVal (j.lookup "code")) != "") = true := by
      simpa [Bool.and_eq_true] using hcc
    obtain ⟨hcs, hcne⟩ := hcc2
    obtain ⟨cs, hcl⟩ := (isStrVal_iff _).mp hcs
    have hp : p = j := (Option.some.inj h).symm
    subst hp
    refine ⟨hobj, ⟨rs, hr⟩, ⟨fs, hf⟩, ⟨"code", ht, by simp⟩, ?_, ?_⟩
    · exact ⟨fun _ => ht, fun _ => hasKey_of_lookup hcl⟩
    · intro _
      refine ⟨cs, hcl, ?_⟩
      have hne2 : pyStrip (strVal (p.lookup "code")) ≠ "" := by
        simpa using hcne
      rw [hcl] at hne2
      simpa [strVal] using hne2
  case isFalse hncode =>
    rw [hstrv] at hncode
    have hts_ne : ts ≠ "code" := fun hh => hncode hh
    split at h
    case isTrue hkey =>
      -- spurious code key on a non-code payload: it is removed
      have hp : p = j.removeKey "code" := (Option.some.inj h).symm
      subst hp
      have hrr : (j.removeKey "code").lookup "response" = some (Json.str rs) := by
        rw [lookup_removeKey_ne j _ _ (by decide), hr]
      have hfr : (j.removeKey "code").lookup "feedback" = some (Json.str fs) := by
        rw [lookup_removeKey_ne j _ _ (by decide), hf]
      have htr : (j.removeKey "code").lookup "type" = some (Json.str ts) := by
        rw [lookup_removeKey_ne j _ _ (by decide), ht]
      refine ⟨by rw [isObj_removeKey]; exact hobj, ⟨rs, hrr⟩, ⟨fs, hfr⟩, ⟨ts, htr, htag4⟩,
        ?_, ?_⟩
      · constructor
        · intro habs
          rw [hasKey_removeKey] at habs
          exact absurd habs (by simp)
        · intro habs
          rw [htr] at habs
          exact absurd (Json.str.inj (Option.some.inj habs)) hts_ne
      · intro habs
        rw [htr] at habs
        exact absurd (Json.str.inj (Option.some.inj habs)) hts_ne
    case isFalse hkey =>
      have hp : p = j := (Option.some.inj h).symm
      subst hp
      refine ⟨hobj, ⟨rs, hr⟩, ⟨fs, hf⟩, ⟨ts, ht, htag4⟩, ?_, ?_⟩
      · constructor
        · intro habs
          exact absurd habs hkey
        · intro habs
          rw [ht] at habs
          exact absurd (Json.str.inj (Option.some.inj habs)) hts_ne
      · intro habs
        rw [ht] at habs
        exact absurd (Json.str.inj (Option.some.inj habs)) hts_ne

/-! ## Helper lemmas about message chunking -/

lemma chunksAux_nil (fuel size : Nat) : chunksAux fuel size [] = [] := by
  cases fuel <;> rfl

lemma chunksAux_flatten : ∀ (fuel size : Nat) (l : List Char), 0 < size → l.length ≤ fuel →
    (chunksAux fuel size l).flatten = l := by
  intro fuel
  induction fuel with
  | zero =>
    intro size l hs hl
    have h0 : l = [] := List.length_eq_zero.mp (Nat.le_zero.mp hl)
    subst h0
    rfl
  | succ f ih =>
    intro size l hs hl
    cases l with
    | nil => rfl
    | cons c cs =>
      simp only [chunksAux, List.flatten_cons]
      rw [ih size ((c :: cs).drop size) hs (by rw [List.length_drop]; omega)]
      exact List.take_append_drop size (c :: cs)

lemma chunksAux_mem_length : ∀ (fuel size : Nat) (l c : List Char),
    c ∈ chunksAux fuel size l → c.length ≤ size := by
  intro fuel
  induction fuel with
  | zero => intro size l c hc; simp [chunksAux] at hc
  | succ f ih =>
    intro size l c hc
    cases l with
    | nil => simp [chunksAux] at hc
    | cons x xs =>
      simp only [chunksAux, List.mem_cons] at hc
      rcases hc with rfl | hc
      · rw [List.length_take]
        exact Nat.min_le_left _ _
      · exact ih size _ c hc

lemma chunksAux_length : ∀ (fuel size : Nat) (l : List Char), 0 < size → l.length ≤ fuel →
    (chunksAux fuel size l).length = (l.length + size - 1) / size := by
  intro fuel
  induction fuel with
  | zero =>
    intro size l hs hl
    have h0 : l = [] := List.length_eq_zero.mp (Nat.le_zero.mp hl)
    subst h0
    simp only [chunksAux, List.length_nil, Nat.zero_add]
    rw [Nat.div_eq_of_lt (by omega)]
  | succ f ih =>
    intro size l hs hl
    cases l with
    | nil =>
      simp only [chunksAux, List.length_nil, Nat.zero_add]
      rw [Nat.div_eq_of_lt (by omega)]
    | cons x xs =>
      simp only [chunksAux, List.length_cons]
      rw [ih size ((x :: xs).drop size) hs
        (by rw [List.length_drop]; simp only [List.length_cons] at hl ⊢; omega)]
      rw [List.length_drop]
      simp only [List.length_cons]
      by_cases hc : size ≤ xs.length + 1
      · have e1 : xs.length + 1 - size + size - 1 = xs.length := by omega
        have e2 : xs.length + 1 + size - 1 = xs.length + size := by omega
        rw [e1, e2, Nat.add_div_right _ hs]
      · have e1 : xs.length + 1 - size = 0 := by omega
        have e2 : xs.length + 1 + size - 1 = xs.length + size := by omega
        rw [e1, e2, Nat.add_div_right _ hs]
        rw [Nat.div_eq_of_lt (by omega), Nat.div_eq_of_lt (by omega)]

lemma foldl_append_mk : ∀ (L : List (List Char)) (acc : List Char),
    List.foldl (fun r s => r ++ s) (String.mk acc) (L.map String.mk) =
      String.mk (acc ++ L.flatten) := by
  intro L
  induction L with
  | nil => intro acc; simp
  | cons a t ih =>
    intro acc
    simp only [List.map_cons, List.foldl_cons, List.flatten_cons]
    have h1 : String.mk acc ++ String.mk a = String.mk (acc ++ a) := rfl
    rw [h1, ih, List.append_assoc]

lemma join_map_mk (L : List (List Char)) : String.join (L.map String.mk) = String.mk L.flatten := by
  show List.foldl (fun r s => r ++ s) (String.mk []) (L.map String.mk) = String.mk L.flatten
  simpa using foldl_append_mk L []

lemma replyParts_isReply : ∀ (ps : List String) (b : Bool) (e : Event),
    e ∈ replyParts ps b → e.isReply = true := by
  intro ps
  induction ps with
  | nil => intro b e he; simp [replyParts] at he
  | cons p t ih =>
    intro b e he
    simp only [replyParts, List.mem_cons] at he
    rcases he with rfl | he
    · rfl
    · exact ih false e he

lemma replyParts_mentions : ∀ ps : List String,
    (replyParts ps false).map Event.mentions = List.replicate ps.length false := by
  intro ps
  induction ps with
  | nil => rfl
  | cons p t ih => simp [replyParts, List.replicate_succ, ih, Event.mentions]

/-! ## Helper lemmas about line splitting and the fence cleanup -/

/-- Character-list version of `'\n'.join`. -/
def joinNLData : List (List Char) → List Char
  | [] => []
  | [x] => x
  | x :: y :: xs => x ++ '\n' :: joinNLData (y :: xs)

lemma joinNL_data : ∀ L : List String, (joinNL L).data = joinNLData (L.map String.data) := by
  intro L
  induction L with
  | nil => rfl
  | cons x t ih =>
    cases t with
    | nil => rfl
    | cons y xs =>
      show (x ++ "\n" ++ joinNL (y :: xs)).data =
        x.data ++ '\n' :: joinNLData ((y :: xs).map String.data)
      rw [String.data_append, String.data_append, ih]
      simp

lemma not_nl_of_not_boundary {c : Char} (h : isLineBoundary c = false) : c ≠ '\n' := by
  intro hc
  subst hc
  simp [isLineBoundary] at h

lemma not_cr_of_not_boundary {c : Char} (h : isLineBoundary c = false) : c ≠ '\r' := by
  intro hc
  subst hc
  simp [isLineBoundary] at h

lemma normalizeNL_cons_not_cr (c : Char) (cs : List Char) (h : c ≠ '\r') :
    normalizeNL (c :: cs) = (if isLineBoundary c then '\n' else c) :: normalizeNL cs := by
  rw [normalizeNL.eq_def]
  split <;> simp_all

lemma normalizeNL_cons_ne (c : Char) (cs : List Char) (h : isLineBoundary c = false) :
    normalizeNL (c :: cs) = c :: normalizeNL cs := by
  rw [normalizeNL_cons_not_cr c cs (not_cr_of_not_boundary h), h]
  rfl

lemma normalizeNL_cons_nl (cs : List Char) :
    normalizeNL ('\n' :: cs) = '\n' :: normalizeNL cs := by
  rw [normalizeNL_cons_not_cr '\n' cs (by decide), if_pos (by decide)]

/-- Normalization is the identity on strings whose only line-boundary
characters are `\n` itself. -/
lemma normalizeNL_eq_self : ∀ l : List Char,
    (∀ c ∈ l, isLineBoundary c = false ∨ c = '\n') → normalizeNL l = l := by
  intro l
  induction l with
  | nil => intro h; rfl
  | cons c cs ih =>
    intro h
    rcases h c (List.mem_cons_self c cs) with hc | hc
    · rw [normalizeNL_cons_ne c cs hc, ih (fun x hx => h x (List.mem_cons_of_mem c hx))]
    · subst hc
      rw [normalizeNL_cons_nl, ih (fun x hx => h x (List.mem_cons_of_mem _ hx))]

lemma joinNLData_chars : ∀ L : List (List Char),
    (∀ p ∈ L, ∀ c ∈ p, isLineBoundary c = false) →
    ∀ c ∈ joinNLData L, isLineBoundary c = false ∨ c = '\n' := by
  intro L
  induction L with
  | nil => intro h c hc; simp [joinNLData] at hc
  | cons x t ih =>
    intro h c hc
    cases t with
    | nil => exact Or.inl (h x (List.mem_cons_self _ _) c hc)
    | cons y xs =>
      rw [show joinNLData (x :: y :: xs) = x ++ '\n' :: joinNLData (y :: xs) from rfl] at hc
      rcases List.mem_append.mp hc with hx | hrest
      · exact Or.inl (h x (List.mem_cons_self _ _) c hx)
      · rcases List.mem_cons.mp hrest with rfl | hr
        · exact Or.inr rfl
        · exact ih (fun p hp => h p (List.mem_cons_of_mem x hp)) c hr

lemma splitOnNL_no_nl : ∀ l : List Char, (∀ c ∈ l, c ≠ '\n') → splitOnNL l = [l] := by
  intro l
  induction l with
  | nil => intro h; rfl
  | cons c cs ih =>
    intro h
    have hc : c ≠ '\n' := h c (List.mem_cons_self c cs)
    simp only [splitOnNL, if_neg hc]
    rw [ih (fun x hx => h x (List.mem_cons_of_mem c hx))]

lemma splitOnNL_append_nl : ∀ (a rest : List Char), (∀ c ∈ a, c ≠ '\n') →
    splitOnNL (a ++ '\n' :: rest) = a :: splitOnNL rest := by
  intro a
  induction a with
  | nil =>
    intro rest h
    simp [splitOnNL]
  | cons c a2 ih =>
    intro rest h
    have hc : c ≠ '\n' := h c (List.mem_cons_self c a2)
    simp only [List.cons_append, splitOnNL, if_neg hc]
    rw [show a2.append ('\n' :: rest) = a2 ++ '\n' :: rest from rfl,
      ih rest (fun x hx => h x (List.mem_cons_of_mem c hx))]

lemma splitOnNL_joinNLData : ∀ L : List (List Char), L ≠ [] →
    (∀ p ∈ L, ∀ c ∈ p, c ≠ '\n') → splitOnNL (joinNLData L) = L := by
  intro L
  induction L with
  | nil => intro h _; exact absurd rfl h
  | cons x t ih =>
    intro _ h
    cases t with
    | nil => exact splitOnNL_no_nl x (h x (List.mem_cons_self _ _))
    | cons y xs =>
      show splitOnNL (x ++ '\n' :: joinNLData (y :: xs)) = x :: y :: xs
      rw [splitOnNL_append_nl x _ (h x (List.mem_cons_self _ _)),
        ih (by simp) (fun p hp => h p (List.mem_cons_of_mem x hp))]

lemma joinNLData_cons_suffix (a : List Char) (t : List (List Char)) :
    ∃ suffix, joinNLData (a :: t) = a ++ suffix := by
  cases t with
  | nil => exact ⟨[], (List.append_nil a).symm⟩
  | cons y xs => exact ⟨'\n' :: joinNLData (y :: xs), rfl⟩

lemma joinNLData_getLast? : ∀ (L : List (List Char)) (x : List Char),
    L.getLast? = some x → x ≠ [] → (joinNLData L).getLast? = x.getLast? := by
  intro L
  induction L with
  | nil => intro x hx _; simp at hx
  | cons a t ih =>
    intro x hx hxne
    cases t with
    | nil =>
      have hax : a = x := by simpa using hx
      subst hax
      rfl
    | cons y xs =>
      have hx2 : (y :: xs).getLast? = some x := by
        rw [List.getLast?_cons_cons] at hx
        exact hx
      have hM := ih x hx2 hxne
      show (a ++ '\n' :: joinNLData (y :: xs)).getLast? = x.getLast?
      rw [List.getLast?_append_of_ne_nil _ (by simp)]
      cases hMd : joinNLData (y :: xs) with
      | nil =>
        exfalso
        rw [hMd] at hM
        have : x.getLast? = none := hM.symm
        rw [List.getLast?_eq_none_iff] at this
        exact hxne this
      | cons m ms =>
        rw [List.getLast?_cons_cons, ← hMd, hM]

lemma lineSafe_chars {s : String} (h : lineSafe s = true) :
    ∀ c ∈ s.data, isLineBoundary c = false := by
  intro c hc
  have := List.all_eq_true.mp h c hc
  simpa using this

lemma lineSafe_append {a b : String} (ha : lineSafe a = true) (hb : lineSafe b = true) :
    lineSafe (a ++ b) = true := by
  simp only [lineSafe, String.data_append, List.all_append]
  simp only [lineSafe] at ha hb
  rw [ha, hb]
  rfl

/-- Python `splitlines` is a left inverse of `'\n'.join` on nonempty
lists of line-safe strings whose last element is nonempty. -/
lemma pySplitlines_joinNL (L : List String) (hne : L ≠ [])
    (hsafe : ∀ p ∈ L, lineSafe p = true) (hlast : L.getLast? ≠ some "") :
    pySplitlines (joinNL L) = L := by
  have hnoBound : ∀ p ∈ L.map String.data, ∀ c ∈ p, isLineBoundary c = false := by
    intro p hp c hc
    rcases List.mem_map.mp hp with ⟨s, hs, rfl⟩
    exact lineSafe_chars (hsafe s hs) c hc
  have hnoNL : ∀ p ∈ L.map String.data, ∀ c ∈ p, c ≠ '\n' := by
    intro p hp c hc
    exact not_nl_of_not_boundary (hnoBound p hp c hc)
  have hmapne : L.map String.data ≠ [] := by
    intro habs
    exact hne (List.map_eq_nil_iff.mp habs)
  unfold pySplitlines
  rw [joinNL_data, normalizeNL_eq_self _ (joinNLData_chars _ hnoBound),
    splitOnNL_joinNLData _ hmapne hnoNL]
  have hlast2 : ¬((L.map String.data).getLast? = some []) := by
    intro habs
    rw [List.getLast?_map] at habs
    cases hL : L.getLast? with
    | none => rw [hL] at habs; simp at habs
    | some s =>
      rw [hL] at habs
      have hsd : s.data = [] := by simpa using habs
      have hs0 : s = "" := by
        cases s with
        | mk d => cases hsd; rfl
      exact hlast (hs0 ▸ hL)
  rw [if_neg hlast2, List.map_map]
  have hid : String.mk ∘ String.data = id := funext fun s => rfl
  rw [hid, List.map_id]

lemma fence_isPrefixOf (l : List Char) :
    ("```".data).isPrefixOf ('`' :: '`' :: '`' :: l) = true := by
  show (['`', '`', '`'] : List Char).isPrefixOf ('`' :: '`' :: '`' :: l) = true
  simp [List.isPrefixOf]

lemma fence_head_data (hdr : String) :
    ("```" ++ hdr).data = '`' :: '`' :: '`' :: hdr.data := by
  rw [String.data_append]
  rfl

lemma pyStrip_eq_self (s : String) (c1 c2 : Char)
    (hc1 : s.data.head? = some c1) (hs1 : isPySpace c1 = false)
    (hc2 : s.data.getLast? = some c2) (hs2 : isPySpace c2 = false) : pyStrip s = s := by
  have h1 : s.data.dropWhile isPySpace = s.data := by
    cases hdata : s.data with
    | nil => rfl
    | cons x xs =>
      rw [hdata] at hc1
      have hx : x = c1 := by simpa using hc1
      rw [List.dropWhile_cons, if_neg (by rw [hx, hs1]; simp)]
  have h2 : (s.data.reverse).dropWhile isPySpace = s.data.reverse := by
    cases hrev : s.data.reverse with
    | nil => rfl
    | cons r rs =>
      have hh : s.data.reverse.head? = some c2 := by
        rw [List.head?_reverse]
        exact hc2
      rw [hrev] at hh
      have hr : r = c2 := by simpa using hh
      rw [List.dropWhile_cons, if_neg (by rw [hr, hs2]; simp)]
  unfold pyStrip
  rw [h1, h2, List.reverse_reverse]

lemma fenced_getLast (hdr : String) (interior : List String) :
    (("```" ++ hdr) :: interior ++ ["```"]).getLast? = some "```" := by
  rw [show ("```" ++ hdr) :: interior ++ ["```"] =
    (("```" ++ hdr) :: interior) ++ ["```"] from by simp, List.getLast?_concat]

lemma cleanup_code_fenced (hdr : String) (interior : List String)
    (hsafe : lineSafe hdr = true) (hint : ∀ l ∈ interior, lineSafe l = true) :
    cleanup_code (joinNL (("```" ++ hdr) :: interior ++ ["```"])) = joinNL interior := by
  have hLsafe : ∀ p ∈ ("```" ++ hdr) :: interior ++ ["```"], lineSafe p = true := by
    intro p hp
    rcases List.mem_cons.mp hp with rfl | hp2
    · exact lineSafe_append (by decide) hsafe
    · rcases List.mem_append.mp hp2 with hpi | hpl
      · exact hint p hpi
      · rw [List.mem_singleton.mp hpl]
        decide
  obtain ⟨suffix, hsuf⟩ :=
    joinNLData_cons_suffix ("```" ++ hdr).data ((interior ++ ["```"]).map String.data)
  have hdata : (joinNL (("```" ++ hdr) :: interior ++ ["```"])).data =
      '`' :: '`' :: '`' :: (hdr.data ++ suffix) := by
    rw [joinNL_data,
      show List.map String.data (("```" ++ hdr) :: interior ++ ["```"]) =
        ("```" ++ hdr).data :: List.map String.data (interior ++ ["```"]) from rfl,
      hsuf, fence_head_data]
    simp
  have hlastL := fenced_getLast hdr interior
  have hlastdata : (joinNL (("```" ++ hdr) :: interior ++ ["```"])).data.getLast? =
      some '`' := by
    rw [joinNL_data]
    rw [joinNLData_getLast? _ "```".data (by rw [List.getLast?_map, hlastL]; rfl) (by decide)]
    decide
  have hstrip : pyStrip (joinNL (("```" ++ hdr) :: interior ++ ["```"])) =
      joinNL (("```" ++ hdr) :: interior ++ ["```"]) := by
    refine pyStrip_eq_self _ '`' '`' ?_ (by decide) hlastdata (by decide)
    rw [hdata]
    rfl
  have hstarts : pyStartsWith (joinNL (("```" ++ hdr) :: interior ++ ["```"])) "```" = true := by
    unfold pyStartsWith
    rw [hdata]
    exact fence_isPrefixOf _
  have hsplit : pySplitlines (joinNL (("```" ++ hdr) :: interior ++ ["```"])) =
      ("```" ++ hdr) :: interior ++ ["```"] :=
    pySplitlines_joinNL _ (by simp) hLsafe (by rw [hlastL]; simp)
  have hstarts0 : pyStartsWith ("```" ++ hdr) "```" = true := by
    unfold pyStartsWith
    rw [fence_head_data]
    exact fence_isPrefixOf _
  unfold cleanup_code
  rw [hstrip, hstarts, if_pos rfl, hsplit]
  rw [show (("```" ++ hdr) :: interior ++ ["```"]).headD "" = "```" ++ hdr from rfl]
  rw [show (("```" ++ hdr) :: interior ++ ["```"]).getLastD "" = "```" from by
    rw [List.getLastD_eq_getLast?, hlastL]; rfl]
  rw [hstarts0]
  rw [if_pos (by simp)]
  rw [show (("```" ++ hdr) :: interior ++ ["```"]).drop 1 = interior ++ ["```"] from rfl]
  rw [List.dropLast_concat]

/-! ## Helper lemmas about URL encoding -/

lemma quoteChar_unreserved {c : Char} (h : isUnreserved c = true) : quoteChar c = [c] := by
  simp [quoteChar, h]

lemma flatMap_quote_unreserved : ∀ l : List Char, (∀ c ∈ l, isUnreserved c = true) →
    l.flatMap quoteChar = l := by
  intro l
  induction l with
  | nil => intro h; rfl
  | cons c cs ih =>
    intro h
    rw [List.flatMap_cons, quoteChar_unreserved (h c (List.mem_cons_self c cs)),
      ih (fun x hx => h x (List.mem_cons_of_mem c hx))]
    rfl

lemma length_flatMap_replicate (n : Nat) (c : Char) :
    ((List.replicate n c).flatMap quoteChar).length = n * (quoteChar c).length := by
  induction n with
  | zero => simp
  | succ k ih =>
    rw [List.replicate_succ, List.flatMap_cons, List.length_append, ih, Nat.succ_mul]
    omega

lemma formatAudioUrl_length (p : String) : (formatAudioUrl p).length = p.length + 59 := by
  have h1 : audioUrlHead.length = 29 := rfl
  have h2 : audioUrlTail.length = 30 := rfl
  show (audioUrlHead ++ p ++ audioUrlTail).length = p.length + 59
  rw [String.length_append, String.length_append, h1, h2]
  omega

lemma allowed_prompt_len_eq : allowed_prompt_len = 1891 := by decide

/-! ## Theorems -/

/-- C1: every failure mode of the completion exchange — network error,
timeout, non-200 status, malformed outer JSON, an envelope without a
usable `choices[0].message.content`, malformed inner JSON, missing or
wrong-typed payload keys, a tag outside the four enumerated values, or
a missing/blank `code` on a code-tagged payload — produces the same
null result, so the caller cannot tell the failures apart. -/
theorem call_ai_api_failures_collapse :
    call_ai_api .netError = none ∧
    call_ai_api .timeout = none ∧
    (∀ (status : Nat) (body : String), status ≠ 200 →
      call_ai_api (.httpResponse status body) = none) ∧
    (∀ body : String, json_loads body = none →
      call_ai_api (.httpResponse 200 body) = none) ∧
    (∀ (body : String) (w : Json), json_loads body = some w → extract_content w = none →
      call_ai_api (.httpResponse 200 body) = none) ∧
    (∀ (body : String) (w : Json) (s : String), json_loads body = some w →
      extract_content w = some s → json_loads s = none →
      call_ai_api (.httpResponse 200 body) = none) ∧
    (∀ (body : String) (w : Json) (s : String) (inner : Json), json_loads body = some w →
      extract_content w = some s → json_loads s = some inner →
      ((¬∃ v, inner.lookup "response" = some (Json.str v)) ∨
        (¬∃ v, inner.lookup "feedback" = some (Json.str v)) ∨
        (¬∃ v, inner.lookup "type" = some (Json.str v))) →
      call_ai_api (.httpResponse 200 body) = none) ∧
    (∀ (body : String) (w : Json) (s t : String) (inner : Json), json_loads body = some w →
      extract_content w = some s → json_loads s = some inner →
      inner.lookup "type" = some (Json.str t) → validTypeTag t = false →
      call_ai_api (.httpResponse 200 body) = none) ∧
    (∀ (body : String) (w : Json) (s : String) (inner : Json), json_loads body = some w →
      extract_content w = some s → json_loads s = some inner →
      inner.lookup "type" = some (Json.str "code") →
      (inner.lookup "code" = none ∨
        ∃ c, inner.lookup "code" = some (Json.str c) ∧ pyStrip c = "") →
      call_ai_api (.httpResponse 200 body) = none) ∧
    (∀ (body : String) (w : Json) (s : String) (inner : Json), json_loads body = some w →
      extract_content w = some s → json_loads s = some inner →
      validate_content inner = none →
      call_ai_api (.httpResponse 200 body) = none) := by
  refine ⟨rfl, rfl, ?_, ?_, ?_, ?_, ?_, ?_, ?_, ?_⟩
  · intro status body h
    simp [call_ai_api, h]
  · intro body h1
    simp [call_ai_api, h1]
  · intro body w h1 h2
    simp [call_ai_api, h1, h2]
  · intro body w s h1 h2 h3
    simp [call_ai_api, h1, h2, h3]
  · intro body w s inner h1 h2 h3 hmiss
    have hv := validate_content_none_of_missing inner hmiss
    simp [call_ai_api, h1, h2, h3, hv]
  · intro body w s t inner h1 h2 h3 ht htag
    have hv := validate_content_none_of_bad_type inner t ht htag
    simp [call_ai_api, h1, h2, h3, hv]
  · intro body w s inner h1 h2 h3 ht hcode
    have hv := validate_content_none_of_bad_code inner ht hcode
    simp [call_ai_api, h1, h2, h3, hv]
  · intro body w s inner h1 h2 h3 hv
    simp [call_ai_api, h1, h2, h3, hv]

/-- Witness for `call_ai_api_failures_collapse` on a concrete HTTP 500
response. -/
theorem call_ai_api_failures_collapse_witness :
    call_ai_api (.httpResponse 500 "oops") = none :=
  call_ai_api_failures_collapse.2.2.1 500 "oops" (by decide)

/-- A concrete well-formed completion envelope whose inner payload is a
`text` response. -/
def sampleEnvelope : String :=
  "\x7b\"choices\":[\x7b\"message\":\x7b\"content\":\"\x7b\\\"response\\\":\\\"a\\\",\\\"feedback\\\":\\\"b\\\",\\\"type\\\":\\\"text\\\"\x7d\"\x7d\x7d]\x7d"

/-- The payload parsed out of `sampleEnvelope`. -/
def samplePayload : Json :=
  Json.obj [("response", Json.str "a"), ("feedback", Json.str "b"), ("type", Json.str "text")]

/-- C2: every non-null `call_ai_api` result is an object with string
`response` and `feedback`, a `type` among the four enumerated tags, a
`code` key present exactly when the type is `"code"`, and in that case
a `code` string that is non-blank after stripping. -/
theorem call_ai_api_payload_shape :
    ∀ (outcome : ApiOutcome) (p : Json), call_ai_api outcome = some p →
      p.isObj = true ∧
      (∃ s, p.lookup "response" = some (Json.str s)) ∧
      (∃ s, p.lookup "feedback" = some (Json.str s)) ∧
      (∃ t, p.lookup "type" = some (Json.str t) ∧
        (t = "text" ∨ t = "code" ∨ t = "audio" ∨ t = "rejection")) ∧
      (p.hasKey "code" = true ↔ p.lookup "type" = some (Json.str "code")) ∧
      (p.lookup "type" = some (Json.str "code") →
        ∃ c, p.lookup "code" = some (Json.str c) ∧ pyStrip c ≠ "") := by
  intro outcome p h
  have hval : ∃ inner, validate_content inner = some p := by
    cases outcome with
    | netError => simp [call_ai_api] at h
    | timeout => simp [call_ai_api] at h
    | httpResponse status body =>
      by_cases hst : status = 200
      · subst hst
        cases h1 : json_loads body with
        | none => simp [call_ai_api, h1] at h
        | some w =>
          cases h2 : extract_content w with
          | none => simp [call_ai_api, h1, h2] at h
          | some s =>
            cases h3 : json_loads s with
            | none => simp [call_ai_api, h1, h2, h3] at h
            | some inner =>
              refine ⟨inner, ?_⟩
              simpa [call_ai_api, h1, h2, h3] using h
      · simp [call_ai_api, hst] at h
  obtain ⟨inner, hv⟩ := hval
  exact validate_content_props inner p hv

/-- Witness for `call_ai_api_payload_shape` on the concrete sample
envelope. -/
theorem call_ai_api_payload_shape_witness :
    samplePayload.isObj = true ∧ (samplePayload.hasKey "code" = true ↔
      samplePayload.lookup "type" = some (Json.str "code")) := by
  have h := call_ai_api_payload_shape (.httpResponse 200 sampleEnvelope) samplePayload rfl
  exact ⟨h.1, h.2.2.2.2.1⟩

/-- C3: the dispatcher emits a text response of length at most 2000 as
a single reply containing exactly that string, and splits a response of
length 4200 into exactly 3 in-order chunks of at most 1990 characters
whose concatenation is the original string. -/
theorem dispatcher_text_chunking :
    (∀ (fb : String) (au : AudioOutcome) (s : String),
      dispatch_payload (Json.obj [("response", Json.str s), ("feedback", Json.str fb),
        ("type", Json.str "text")]) au = emit_text s) ∧
    (∀ s : String, s.length ≤ 2000 → emit_text s = [Event.reply s false]) ∧
    (∀ s : String, s.length = 4200 →
      (splitParts s).length = 3 ∧
      (∀ c ∈ splitParts s, c.length ≤ 1990) ∧
      String.join (splitParts s) = s ∧
      emit_text s = replyParts (splitParts s) true) := by
  refine ⟨?_, ?_, ?_⟩
  · intro fb au s
    rfl
  · intro s h
    rw [emit_text, if_neg (by omega)]
  · intro s h
    have hd : s.data.length = 4200 := h
    refine ⟨?_, ?_, ?_, ?_⟩
    · rw [splitParts, List.length_map,
        chunksAux_length _ 1990 _ (by norm_num) (le_refl _), hd]
    · intro c hc
      rw [splitParts] at hc
      rcases List.mem_map.mp hc with ⟨cl, hcl, rfl⟩
      have := chunksAux_mem_length _ _ _ _ hcl
      simpa using this
    · rw [splitParts, join_map_mk, chunksAux_flatten _ _ _ (by norm_num) (le_refl _)]
    · rw [emit_text, if_pos (by omega)]

/-- Witness for `dispatcher_text_chunking` on concrete strings of
length 2 and 4200. -/
theorem dispatcher_text_chunking_witness :
    emit_text "hi" = [Event.reply "hi" false] ∧
    (splitParts (String.mk (List.replicate 4200 'a'))).length = 3 := by
  constructor
  · exact dispatcher_text_chunking.2.1 "hi" (by decide)
  · exact (dispatcher_text_chunking.2.2 (String.mk (List.replicate 4200 'a'))
      (by rw [String.length_mk, List.length_replicate])).1

/-- C6 counterexample: for a 2001-character text response the dispatcher
produces two chunks and the second is also emitted with `message.reply`
(a reply, not a plain channel send), contradicting the claim that
subsequent chunks are plain sends. -/
theorem chunk_send_counterexample :
    (emit_text (String.mk (List.replicate 2001 'a'))).length = 2 ∧
    (emit_text (String.mk (List.replicate 2001 'a'))).map Event.isReply = [true, true] := by
  have hlen : (String.mk (List.replicate 2001 'a')).length = 2001 := by
    rw [String.length_mk, List.length_replicate]
  have hsplit : (splitParts (String.mk (List.replicate 2001 'a'))).length = 2 := by
    rw [splitParts, List.length_map, chunksAux_length _ 1990 _ (by norm_num) (le_refl _)]
    rw [show (String.mk (List.replicate 2001 'a')).data.length = 2001 from by
      rw [show (String.mk (List.replicate 2001 'a')).data = List.replicate 2001 'a' from rfl,
        List.length_replicate]]
  obtain ⟨p1, p2, hps⟩ := List.length_eq_two.mp hsplit
  have hemit : emit_text (String.mk (List.replicate 2001 'a')) =
      [Event.reply p1 true, Event.reply p2 false] := by
    rw [emit_text, if_pos (by omega), hps]
    rfl
  rw [hemit]
  exact ⟨rfl, rfl⟩

/-- C6 as amended: when a text response splits into multiple chunks,
every chunk is emitted as a reply to the triggering message; only the
first chunk mentions the author and all later chunks have the author
mention disabled. -/
theorem chunk_reply_flags :
    ∀ s : String, s.length > 2000 →
      (∀ e ∈ emit_text s, e.isReply = true) ∧
      (emit_text s).map Event.mentions =
        true :: List.replicate ((splitParts s).length - 1) false := by
  intro s h
  have hemit : emit_text s = replyParts (splitParts s) true := by
    rw [emit_text, if_pos (by omega)]
  obtain ⟨p, ps, hps⟩ : ∃ p ps, splitParts s = p :: ps := by
    cases hdata : s.data with
    | nil =>
      exfalso
      have h0 : s.length = 0 := by
        rw [show s.length = s.data.length from rfl, hdata]
        rfl
      omega
    | cons c cs =>
      refine ⟨String.mk ((c :: cs).take 1990),
        (chunksAux cs.length 1990 ((c :: cs).drop 1990)).map String.mk, ?_⟩
      rw [splitParts, hdata]
      simp [chunksAux, List.length_cons]
  constructor
  · intro e he
    rw [hemit] at he
    exact replyParts_isReply _ _ _ he
  · rw [hemit, hps]
    simp only [replyParts, List.map_cons, Event.mentions]
    rw [replyParts_mentions]
    simp

/-- Witness for `chunk_reply_flags` on a concrete 4201-character
response. -/
theorem chunk_reply_flags_witness :
    (emit_text (String.mk (List.replicate 4201 'b'))).map Event.mentions =
      true :: List.replicate
        ((splitParts (String.mk (List.replicate 4201 'b'))).length - 1) false :=
  (chunk_reply_flags (String.mk (List.replicate 4201 'b'))
    (by rw [String.length_mk, List.length_replicate]; omega)).2

/-- A 700-space input text: its templated audio URL is 2159 units. -/
def spaces700 : String := String.mk (List.replicate 700 ' ')

/-- C4 counterexample: for the 700-space text the templated URL exceeds
the 2000-unit ceiling (it is 2159 units), yet the URL constructed for
the truncated text is 2162 units — still above the ceiling — because
the code truncates the raw text to a fixed 1891-character budget and
never re-checks the percent-encoded length. -/
theorem audio_url_ceiling_counterexample :
    (formatAudioUrl (pyQuote spaces700)).length = 2159 ∧
    (get_audio_url spaces700).map String.length = some 2162 := by
  have hq : (pyQuote spaces700).length = 2100 := by
    show ((List.replicate 700 ' ').flatMap quoteChar).length = 2100
    rw [length_flatMap_replicate]
    rfl
  have hurl : (formatAudioUrl (pyQuote spaces700)).length = 2159 := by
    rw [formatAudioUrl_length, hq]
  refine ⟨hurl, ?_⟩
  rw [get_audio_url, if_pos (by rw [hurl]; decide),
    if_neg (by rw [allowed_prompt_len_eq]; decide)]
  have htake : pyTake spaces700 allowed_prompt_len.toNat = spaces700 := by
    show String.mk ((List.replicate 700 ' ').take allowed_prompt_len.toNat) = spaces700
    rw [allowed_prompt_len_eq, List.take_replicate]
    rfl
  rw [htake, Option.map_some']
  have hq2 : (pyQuote (spaces700 ++ "...")).length = 2103 := by
    show ((spaces700 ++ "...").data.flatMap quoteChar).length = 2103
    rw [String.data_append, List.flatMap_append, List.length_append]
    rw [show (spaces700.data.flatMap quoteChar).length = 2100 from hq]
    rfl
  rw [formatAudioUrl_length, hq2]

/-- C4 as amended: the URL construction is deterministic (a pure
function of the input text), and for text made of characters `quote`
leaves unchanged whose templated URL exceeds the ceiling, the URL
constructed for the truncated text is at most 2000 units.  For text
with percent-encoded characters the constructed URL can still exceed
the ceiling (see the counterexample). -/
theorem audio_url_truncation :
    (∀ t : String, get_audio_url t = get_audio_url t) ∧
    (∀ t : String, (∀ c ∈ t.data, isUnreserved c = true) →
      (formatAudioUrl (pyQuote t)).length > 2000 →
      ∃ u, get_audio_url t = some u ∧ u.length ≤ 2000) := by
  refine ⟨fun t => rfl, ?_⟩
  intro t hres hlong
  have hqt : pyQuote t = t := by
    show String.mk (t.data.flatMap quoteChar) = t
    rw [flatMap_quote_unreserved t.data hres]
  have hdlen : t.data.length > 1941 := by
    have h2 := hlong
    rw [formatAudioUrl_length, hqt] at h2
    have h3 : t.length = t.data.length := rfl
    omega
  have htake : (pyTake t allowed_prompt_len.toNat).length = 1891 := by
    show (t.data.take allowed_prompt_len.toNat).length = 1891
    rw [List.length_take, allowed_prompt_len_eq]
    show min (1891 : Int).toNat t.data.length = 1891
    rw [show ((1891 : Int)).toNat = 1891 from rfl]
    omega
  have hsafe2 : ∀ c ∈ (pyTake t allowed_prompt_len.toNat ++ "...").data,
      isUnreserved c = true := by
    intro c hc
    rw [String.data_append] at hc
    rcases List.mem_append.mp hc with h1 | h2
    · exact hres c (List.mem_of_mem_take h1)
    · have hdots : "...".data = ['.', '.', '.'] := rfl
      rw [hdots] at h2
      have hcd : c = '.' := by simpa using h2
      rw [hcd]
      decide
  have hq3 : pyQuote (pyTake t allowed_prompt_len.toNat ++ "...") =
      pyTake t allowed_prompt_len.toNat ++ "..." := by
    show String.mk ((pyTake t allowed_prompt_len.toNat ++ "...").data.flatMap quoteChar) =
      pyTake t allowed_prompt_len.toNat ++ "..."
    rw [flatMap_quote_unreserved _ hsafe2]
  refine ⟨formatAudioUrl (pyQuote (pyTake t allowed_prompt_len.toNat ++ "...")), ?_, ?_⟩
  · rw [get_audio_url, show max_url_len = 2000 from rfl, if_pos hlong,
      if_neg (by rw [allowed_prompt_len_eq]; decide)]
  · rw [hq3, formatAudioUrl_length, String.length_append,
      show (pyTake t allowed_prompt_len.toNat).length = 1891 from htake,
      show ("..." : String).length = 3 from rfl]
    omega

/-- Witness for `audio_url_truncation` on a 2500-character alphabetic
text. -/
theorem audio_url_truncation_witness :
    (get_audio_url (String.mk (List.replicate 2500 'a'))).isSome = true ∧
    ((get_audio_url (String.mk (List.replicate 2500 'a'))).getD "").length ≤ 2000 := by
  have hres : ∀ c ∈ (String.mk (List.replicate 2500 'a')).data, isUnreserved c = true := by
    intro c hc
    have hc2 : c ∈ List.replicate 2500 'a' := hc
    rw [List.eq_of_mem_replicate hc2]
    decide
  have hlong : (formatAudioUrl (pyQuote (String.mk (List.replicate 2500 'a')))).length >
      2000 := by
    have hid : pyQuote (String.mk (List.replicate 2500 'a')) =
        String.mk (List.replicate 2500 'a') := by
      show String.mk ((List.replicate 2500 'a').flatMap quoteChar) = _
      rw [flatMap_quote_unreserved _ (fun c hc => by
        rw [List.eq_of_mem_replicate hc]; decide)]
    rw [formatAudioUrl_length, hid, String.length_mk, List.length_replicate]
    omega
  obtain ⟨u, hu, hle⟩ := audio_url_truncation.2 (String.mk (List.replicate 2500 'a'))
    hres hlong
  rw [hu]
  exact ⟨rfl, hle⟩

/-- C5: a code payload wrapped in a fenced block (a leading
triple-backtick line, interior lines, a trailing triple-backtick line)
has exactly the two delimiter lines removed by the cleanup, preserving
interior line order and content; when the code is empty after cleanup
and stripping, the dispatcher replies with an abort notice and never
invokes the execution command. -/
theorem code_fence_cleanup :
    (∀ (hdr : String) (interior : List String), lineSafe hdr = true →
      (∀ l ∈ interior, lineSafe l = true) →
      cleanup_code (joinNL (("```" ++ hdr) :: interior ++ ["```"])) = joinNL interior) ∧
    (∀ (response_text code : String), code ≠ "" → pyStrip (cleanup_code code) = "" →
      handle_code response_text code =
        [Event.reply (response_text ++
          "\n\n_(The AI provided code, but it appears to be empty. Action aborted.)_")
          false] ∧
      ∀ c, Event.invokeJsk c ∉ handle_code response_text code) := by
  constructor
  · exact cleanup_code_fenced
  · intro response_text code hne hempty
    have hlist : handle_code response_text code =
        [Event.reply (response_text ++
          "\n\n_(The AI provided code, but it appears to be empty. Action aborted.)_")
          false] := by
      rw [handle_code, if_neg hne, if_pos hempty]
    refine ⟨hlist, ?_⟩
    intro c
    rw [hlist]
    simp

/-- Witness for `code_fence_cleanup` on a concrete fenced Python block
and a concrete blank fenced block. -/
theorem code_fence_cleanup_witness :
    cleanup_code (joinNL (("```" ++ "python") :: ["x = 1", "y"] ++ ["```"])) =
      joinNL ["x = 1", "y"] ∧
    handle_code "ok" "```\n\n```" =
      [Event.reply ("ok" ++
        "\n\n_(The AI provided code, but it appears to be empty. Action aborted.)_")
        false] := by
  constructor
  · exact code_fence_cleanup.1 "python" ["x = 1", "y"] (by decide)
      (by intro l hl; fin_cases hl <;> decide)
  · exact (code_fence_cleanup.2 "ok" "```\n\n```" (by decide) (by decide)).1

/-- C7: an author/channel pair that does not resolve to a live guild
member and guild channel makes `get_user_info` return the empty result,
upon which the pipeline emits exactly one apology reply and aborts
without performing the completion-API HTTP call. -/
theorem empty_snapshot_aborts :
    ∀ (author : AuthorArg) (channel : ChannelArg) (apiOutcome : ApiOutcome)
      (audioOutcome : AudioOutcome),
      ((author = AuthorArg.nonMember ∨ channel = ChannelArg.nonGuild) →
        get_user_info author channel = none) ∧
      (get_user_info author channel = none →
        process_ai_request author channel apiOutcome audioOutcome =
          [Event.reply "An internal error occurred while gathering context." false] ∧
        Event.apiCall ∉ process_ai_request author channel apiOutcome audioOutcome) := by
  intro author channel apiOutcome audioOutcome
  constructor
  · rintro (rfl | rfl)
    · cases channel <;> rfl
    · cases author <;> rfl
  · intro h
    refine ⟨?_, ?_⟩ <;> simp [process_ai_request, h]

/-- Witness for `empty_snapshot_aborts` at a concrete non-resolving pair. -/
theorem empty_snapshot_aborts_witness :
    process_ai_request AuthorArg.nonMember ChannelArg.nonGuild ApiOutcome.netError
        AudioOutcome.netError =
      [Event.reply "An internal error occurred while gathering context." false] := by
  have h := empty_snapshot_aborts AuthorArg.nonMember ChannelArg.nonGuild
    ApiOutcome.netError AudioOutcome.netError
  exact (h.2 (h.1 (Or.inl rfl))).1

/-- C8: the audio client succeeds only on an HTTP 200 response whose
content type contains `audio`; any other response yields `none`, and a
success returns exactly the raw body bytes. -/
theorem audio_response_gate :
    (∀ (t : String) (status : Nat) (ct : String) (body : List Nat),
      get_audio_from_text t (.response status ct body) ≠ none →
      status = 200 ∧ containsAudio ct = true) ∧
    (∀ (t : String) (status : Nat) (ct : String) (body : List Nat),
      ¬(status = 200 ∧ containsAudio ct = true) →
      get_audio_from_text t (.response status ct body) = none) ∧
    (∀ (t : String) (status : Nat) (ct : String) (body r : List Nat),
      get_audio_from_text t (.response status ct body) = some r → r = body) := by
  refine ⟨?_, ?_, ?_⟩
  · intro t status ct body h
    by_cases ht : t = ""
    · simp [get_audio_from_text, ht] at h
    · cases hurl : get_audio_url t with
      | none => simp [get_audio_from_text, ht, hurl] at h
      | some u =>
        by_cases hst : status = 200
        · by_cases hct : containsAudio ct
          · exact ⟨hst, hct⟩
          · simp [get_audio_from_text, ht, hurl, hst, hct] at h
        · simp [get_audio_from_text, ht, hurl, hst] at h
  · intro t status ct body h
    by_cases ht : t = ""
    · simp [get_audio_from_text, ht]
    · cases hurl : get_audio_url t with
      | none => simp [get_audio_from_text, ht, hurl]
      | some u =>
        by_cases hst : status = 200
        · have hct : containsAudio ct = false := by
            rcases Bool.eq_false_or_eq_true (containsAudio ct) with htr | hf
            · exact absurd ⟨hst, htr⟩ h
            · exact hf
          simp [get_audio_from_text, ht, hurl, hst, hct]
        · simp [get_audio_from_text, ht, hurl, hst]
  · intro t status ct body r h
    by_cases ht : t = ""
    · simp [get_audio_from_text, ht] at h
    · cases hurl : get_audio_url t with
      | none => simp [get_audio_from_text, ht, hurl] at h
      | some u =>
        by_cases hst : status = 200
        · by_cases hct : containsAudio ct
          · by_cases hb : body.isEmpty
            · simp [get_audio_from_text, ht, hurl, hst, hct, hb] at h
            · simp [get_audio_from_text, ht, hurl, hst, hct, hb] at h
              exact h.symm
          · simp [get_audio_from_text, ht, hurl, hst, hct] at h
        · simp [get_audio_from_text, ht, hurl, hst] at h

/-- Witness for `audio_response_gate` on a concrete non-200 response. -/
theorem audio_response_gate_witness :
    get_audio_from_text "hi" (.response 500 "audio/mpeg" [1]) = none :=
  audio_response_gate.2.1 "hi" 500 "audio/mpeg" [1] (by decide)

/-- C10: a 200 audio response with an empty body yields `none`, empty
input text yields `none` without the outcome being consulted (no HTTP
call is made), and every success carries a non-empty byte payload. -/
theorem audio_success_nonempty :
    (∀ o1 o2 : AudioOutcome, get_audio_from_text "" o1 = get_audio_from_text "" o2) ∧
    (∀ o : AudioOutcome, get_audio_from_text "" o = none) ∧
    (∀ (t ct : String), containsAudio ct = true →
      get_audio_from_text t (.response 200 ct []) = none) ∧
    (∀ (t : String) (o : AudioOutcome) (b : List Nat),
      get_audio_from_text t o = some b → b ≠ []) := by
  refine ⟨fun o1 o2 => rfl, fun o => rfl, ?_, ?_⟩
  · intro t ct hct
    by_cases ht : t = ""
    · simp [get_audio_from_text, ht]
    · cases hurl : get_audio_url t with
      | none => simp [get_audio_from_text, ht, hurl]
      | some u => simp [get_audio_from_text, ht, hurl, hct]
  · intro t o b h
    by_cases ht : t = ""
    · simp [get_audio_from_text, ht] at h
    · cases hurl : get_audio_url t with
      | none => simp [get_audio_from_text, ht, hurl] at h
      | some u =>
        cases o with
        | netError => simp [get_audio_from_text, ht, hurl] at h
        | timeout => simp [get_audio_from_text, ht, hurl] at h
        | response status ct body =>
          by_cases hst : status = 200
          · by_cases hct : containsAudio ct
            · by_cases hb : body.isEmpty
              · simp [get_audio_from_text, ht, hurl, hst, hct, hb] at h
              · simp [get_audio_from_text, ht, hurl, hst, hct, hb] at h
                rw [← h]
                simpa [List.isEmpty_iff] using hb
            · simp [get_audio_from_text, ht, hurl, hst, hct] at h
          · simp [get_audio_from_text, ht, hurl, hst] at h

/-- Witness for `audio_success_nonempty` on a concrete empty-body 200
audio response. -/
theorem audio_success_nonempty_witness :
    get_audio_from_text "hello" (.response 200 "audio/mpeg" []) = none :=
  audio_success_nonempty.2.2.1 "hello" "audio/mpeg" (by decide)

/-- C9: in the snapshot the role-position fields normalize the
`@everyone` baseline role (whose id is the guild id) to `-1` while any
other role keeps its real non-negative position, so a baseline top role
never collides with a real role rank. -/
theorem role_position_normalization :
    ∀ (m : MemberData) (g : GuildData) (ch : ChannelData) (info : UserInfo),
      get_user_info (.member m g) (.guild ch) = some info →
      (info.userTopRolePosition =
        if m.topRole.id = g.id then -1 else (m.topRole.position : Int)) ∧
      (info.botTopRolePosition =
        if g.me.topRole.id = g.id then -1 else (g.me.topRole.position : Int)) ∧
      (m.topRole.id = g.id → ∀ realPos : Nat, info.userTopRolePosition ≠ (realPos : Int)) ∧
      (m.topRole.id ≠ g.id → info.userTopRolePosition = (m.topRole.position : Int)) ∧
      (g.me.topRole.id = g.id → ∀ realPos : Nat, info.botTopRolePosition ≠ (realPos : Int)) ∧
      (g.me.topRole.id ≠ g.id → info.botTopRolePosition = (g.me.topRole.position : Int)) := by
  intro m g ch info h
  have hinfo : info.userTopRolePosition = get_role_pos g.id (some m.topRole) ∧
      info.botTopRolePosition = get_role_pos g.id (some g.me.topRole) := by
    simp only [get_user_info] at h
    rw [← Option.some.inj h]
    exact ⟨rfl, rfl⟩
  obtain ⟨hu, hb⟩ := hinfo
  have hufold : info.userTopRolePosition =
      if m.topRole.id = g.id then -1 else (m.topRole.position : Int) := by
    rw [hu]; unfold get_role_pos
    by_cases hid : m.topRole.id = g.id <;> simp [hid]
  have hbfold : info.botTopRolePosition =
      if g.me.topRole.id = g.id then -1 else (g.me.topRole.position : Int) := by
    rw [hb]; unfold get_role_pos
    by_cases hid : g.me.topRole.id = g.id <;> simp [hid]
  refine ⟨hufold, hbfold, ?_, ?_, ?_, ?_⟩
  · intro hid realPos
    rw [hufold, if_pos hid]
    omega
  · intro hid
    rw [hufold, if_neg hid]
  · intro hid realPos
    rw [hbfold, if_pos hid]
    omega
  · intro hid
    rw [hbfold, if_neg hid]

/-- A sample member whose top role is the baseline role of guild 10. -/
def sampleMember : MemberData :=
  { id := 1, userName := "u", nick := none, globalName := none,
    roles := [{ id := 10, name := "@everyone", position := 0 }],
    topRole := { id := 10, name := "@everyone", position := 0 },
    guildPermissions := [] }

/-- A sample guild whose bot member holds a real role at position 5. -/
def sampleGuild : GuildData :=
  { id := 10, ownerId := 2,
    me := { id := 3, userName := "bot", nick := none, globalName := none,
            roles := [{ id := 7, name := "Bot", position := 5 }],
            topRole := { id := 7, name := "Bot", position := 5 },
            guildPermissions := [] } }

def sampleChannel : ChannelData := { memberPermissions := [], botPermissions := [] }

/-- The snapshot `get_user_info` builds for the sample member. -/
def sampleInfo : UserInfo :=
  { userId := "1", serverId := "10", userName := "u", userNick := none,
    userGlobalName := none, userRoles := [], userRoleIds := [],
    userTopRoleId := "10", userTopRoleName := "@everyone", userTopRolePosition := -1,
    userChannelPermissions := [], userGuildPermissions := [], isOwner := false,
    botUserId := "3", botTopRoleId := "7", botTopRolePosition := 5,
    botGuildPermissions := [], botChannelPermissions := [] }

/-- Witness for `role_position_normalization` on the concrete sample
snapshot. -/
theorem role_position_normalization_witness :
    sampleInfo.userTopRolePosition = -1 ∧ sampleInfo.botTopRolePosition = 5 := by
  have h := role_position_normalization sampleMember sampleGuild sampleChannel sampleInfo
    (by decide)
  exact ⟨h.1.trans (by decide), h.2.1.trans (by decide)⟩

end Gem
